import Mathlib

/-!
Shallow embedding of the tabular actor-critic core (actor, gambler
environment, pole-balancing environment) together with proofs of the
specified properties.

Modelling conventions:
* Python `defaultdict(lambda: 0)` tables are modelled as total functions
  `List ℤ → ℚ` (the default-zero semantics is baked in: an absent key
  reads as 0).
* Python floats are modelled as exact rationals (actor, gambler) or as
  real numbers (pole physics, which uses `cos`/`sin`).
* Randomness is modelled by passing each draw as an explicit argument:
  the Bernoulli outcome of `Gambler.get_child_state` is a `Bool`,
  `random.choice` receives a natural-number draw taken modulo the list
  length, and `randint`/`uniform` receive the drawn value directly.
* `raise` is modelled by an `Option` result; where the Python method has
  mutated the object before raising, the mutated state is returned next
  to the `Option` (`Gambler.update` increments `current_step` first).
-/

namespace ACRL

/-- Actor state: policy table, eligibility table and the three learning
constants (`lrate`, `drate`, `trace_decay`), as in `Actor.__init__`.
State-action pairs `(*state, action)` are modelled as `List ℤ` keys. -/
structure Actor where
  policy : List ℤ → ℚ
  stateActionEligibility : List ℤ → ℚ
  lrate : ℚ
  drate : ℚ
  traceDecay : ℚ

/-- `Actor.get_state_action_eligibility`. -/
def Actor.getStateActionEligibility (a : Actor) (pair : List ℤ) : ℚ :=
  a.stateActionEligibility pair

/-- `Actor.set_state_action_eligibility`. -/
def Actor.setStateActionEligibility (a : Actor) (pair : List ℤ) (value : ℚ) : Actor :=
  { a with stateActionEligibility := Function.update a.stateActionEligibility pair value }

/-- `Actor.get_state_action_value`. -/
def Actor.getStateActionValue (a : Actor) (pair : List ℤ) : ℚ :=
  a.policy pair

/-- `Actor.set_state_action_value`. -/
def Actor.setStateActionValue (a : Actor) (pair : List ℤ) (value : ℚ) : Actor :=
  { a with policy := Function.update a.policy pair value }

/-- `Actor.update_state_action_value`: stores
`old_value + lrate * td_error * eligibility(pair)` in the policy table. -/
def Actor.updateStateActionValue (a : Actor) (pair : List ℤ) (tdError : ℚ) : Actor :=
  a.setStateActionValue pair
    (a.getStateActionValue pair + a.lrate * tdError * a.getStateActionEligibility pair)

/-- `Actor.update_state_action_eligibility`: stores
`drate * trace_decay * old_eligibility` in the eligibility table. -/
def Actor.updateStateActionEligibility (a : Actor) (pair : List ℤ) : Actor :=
  a.setStateActionEligibility pair
    (a.drate * a.traceDecay * a.getStateActionEligibility pair)

/-- `random.choice`: returns an element of `l` selected by the random
draw, and fails (`none`, modelling the `IndexError`) on an empty list. -/
def choice (l : List ℤ) (draw : ℕ) : Option ℤ :=
  l[draw % l.length]?

/-- The accumulator loop of `Actor.get_proposed_action` for
`do_argmax=True`: `best` is `best_action`, `bv` is
`best_state_action_value` (with `⊥` for the initial `float('-inf')`).
For each action, a strictly larger value resets the list, an equal value
appends. -/
def Actor.argmaxGo (a : Actor) (state : List ℤ) :
    List ℤ → List ℤ → WithBot ℚ → List ℤ
  | [], best, _ => best
  | act :: rest, best, bv =>
      let v : WithBot ℚ := (a.getStateActionValue (state ++ [act]) : ℚ)
      if bv < v then a.argmaxGo state rest [act] v
      else if bv = v then a.argmaxGo state rest (best ++ [act]) bv
      else a.argmaxGo state rest best bv

/-- The `best_action` list computed by `Actor.get_proposed_action`
with `do_argmax=True` before the final `random.choice`. -/
def Actor.bestActionList (a : Actor) (state : List ℤ) (possibleActions : List ℤ) : List ℤ :=
  a.argmaxGo state possibleActions [] ⊥

/-- `Actor.get_proposed_action`: random action when `do_argmax` is
false, otherwise `random.choice` over the collected best actions. -/
def Actor.getProposedAction (a : Actor) (doArgmax : Bool) (state : List ℤ)
    (possibleActions : List ℤ) (draw : ℕ) : Option ℤ :=
  if !doArgmax then choice possibleActions draw
  else choice (a.bestActionList state possibleActions) draw

/-! ## Gambler environment (`src/gambler.py`) -/

/-- Mutable state of a `Gambler` instance: the integer coin count
(`self.state`), step counter, step limit (`max_steps` constructor
argument), failure flag and episode history. The constant
`max_coins = 100` and `min_bet = 1` are fixed in `__init__`. -/
structure GState where
  coins : ℤ
  currentStep : ℕ
  maxSteps : ℕ
  failed : Bool
  history : List ℤ

/-- `max_coins`, fixed at 100 in `Gambler.__init__`. -/
def maxCoins : ℤ := 100

/-- `min_bet`, fixed at 1 in `Gambler.__init__`. -/
def minBet : ℤ := 1

/-- `Gambler.action_is_legal` as a function of the current coin count:
`min_bet ≤ action ≤ min(dist_to_lose, dist_to_win)`. -/
def GState.actionIsLegal (coins action : ℤ) : Bool :=
  let distToWin := maxCoins - coins
  let distToLose := coins
  let maxBet := min distToLose distToWin
  minBet ≤ action && action ≤ maxBet

/-- `Gambler.get_legal_actions` as a function of the coin count:
`[min_bet] + list(range(min_bet + 1, max_bet + 1))` (so `[1]` even when
`max_bet < 1`, per the source comment about illegal states). -/
def GState.getLegalActions (coins : ℤ) : List ℤ :=
  let distToWin := maxCoins - coins
  let distToLose := coins
  let maxBet := min distToLose distToWin
  [minBet] ++ (List.range (maxBet - minBet).toNat).map (fun i => minBet + 1 + (i : ℤ))

/-- `Gambler.get_child_state`: one Bernoulli draw (`win`), adding the
wager on a win and subtracting it on a loss. -/
def GState.getChildState (g : GState) (action : ℤ) (win : Bool) : ℤ :=
  if win then g.coins + action else g.coins - action

/-- `Gambler.update`: increments `current_step`, then raises
(modelled as `none`, with the already-mutated state returned beside it)
on an illegal action; otherwise performs the state transition, appends
to the history, sets the failure flag on timeout or ruin, and returns
the reward `new_state - old_state`. -/
def GState.update (g : GState) (action : ℤ) (win : Bool) : GState × Option ℤ :=
  let g1 := { g with currentStep := g.currentStep + 1 }
  if GState.actionIsLegal g1.coins action then
    let oldState := g1.coins
    let newState := g1.getChildState action win
    let g2 := { g1 with coins := newState, history := g1.history ++ [newState] }
    let g3 :=
      if g2.failed then g2
      else if g2.maxSteps ≤ g2.currentStep ∨ g2.coins = 0 then { g2 with failed := true }
      else g2
    (g3, some (newState - oldState))
  else
    (g1, none)

/-- `Gambler.produce_initial_state`: resets the step counter, draws a
fresh coin count (`randint(1, 99)`, the draw passed in), clears the
failure flag and restarts the history. -/
def GState.produceInitialState (g : GState) (draw : ℤ) : GState :=
  { g with currentStep := 0, coins := draw, failed := false, history := [draw] }

/-- `Gambler.is_current_state_final_state`: `self.state == self.max_coins`. -/
def GState.isCurrentStateFinalState (g : GState) : Bool :=
  g.coins = maxCoins

/-- `Gambler.is_current_state_failed_state`: returns the `failed` flag. -/
def GState.isCurrentStateFailedState (g : GState) : Bool :=
  g.failed

/-! ## PoleBalancing environment (`src/pole_balancing.py`)

The four continuous state variables and the physical constants are real
numbers; `np.cos`/`np.sin` become `Real.cos`/`Real.sin`. -/

/-- Mutable state of a `PoleBalancing` instance, together with the
constructor parameters `length`, `mass_p`, `gravity`, `tau` (the
remaining constants `mass_c = 1`, `force = 10`, `max_angle = 0.21`,
`max_x_pos = 2.4` are fixed in `__init__`). `steps` is the episode step
limit (`max_steps` constructor argument). -/
structure PState where
  angle : ℝ
  angleVel : ℝ
  xPos : ℝ
  xVel : ℝ
  currentStep : ℕ
  steps : ℕ
  balancingFailed : Bool
  cartExited : Bool
  length : ℝ
  massP : ℝ
  gravity : ℝ
  tau : ℝ

/-- `mass_c`, fixed at 1 in `PoleBalancing.__init__`. -/
def massC : ℝ := 1

/-- `force`, fixed at 10 in `PoleBalancing.__init__`. -/
def force : ℝ := 10

/-- `max_angle`, fixed at 0.21 in `PoleBalancing.__init__`. -/
def maxAngle : ℝ := 0.21

/-- `max_x_pos`, fixed at 2.4 in `PoleBalancing.__init__`. -/
def maxXPos : ℝ := 2.4

/-- `PoleBalancing.update_angle_acc`: the single-pole-on-cart angular
acceleration from gravity, the applied force, the centripetal
`angle_vel²` term and the mass ratio. -/
noncomputable def PState.updateAngleAcc (p : PState) (bbForce : ℝ) : ℝ :=
  let numeratorFraction :=
    (Real.cos p.angle *
      (-bbForce - p.massP * p.length * p.angleVel ^ 2 * Real.sin p.angle)) /
      (p.massP + massC)
  let numerator := p.gravity * Real.sin p.angle + numeratorFraction
  let denominator :=
    p.length * (4 / 3 - p.massP * Real.cos p.angle ^ 2 / (p.massP + massC))
  numerator / denominator

/-- `PoleBalancing.update_x_acc`: cart acceleration from the applied
force and the freshly computed angular acceleration. -/
noncomputable def PState.updateXAcc (p : PState) (bbForce angleAcc : ℝ) : ℝ :=
  (bbForce +
      p.massP * p.length *
        (p.angleVel ^ 2 * Real.sin p.angle - angleAcc * Real.cos p.angle)) /
    (p.massP + massC)

/-- `[-self.force, self.force][action]`: the signed bang-bang force. -/
def bbForceOf (action : Bool) : ℝ :=
  if action then force else -force

/-- `PoleBalancing.get_child_state` (without rounding): one forward-Euler
step of size `tau`; the accelerations are computed from the old state,
positions advance with the old velocities, velocities with the new
accelerations. Returned as `(x_pos, x_vel, angle, angle_vel)`. -/
noncomputable def PState.getChildState (p : PState) (action : Bool) : ℝ × ℝ × ℝ × ℝ :=
  let bbForce := bbForceOf action
  let angleAcc := p.updateAngleAcc bbForce
  let xAcc := p.updateXAcc bbForce angleAcc
  (p.xPos + p.tau * p.xVel, p.xVel + p.tau * xAcc,
   p.angle + p.tau * p.angleVel, p.angleVel + p.tau * angleAcc)

/-- `PoleBalancing.is_current_state_failed_state`:
`cart_exited or balancing_failed`. -/
def PState.isCurrentStateFailedState (p : PState) : Bool :=
  p.cartExited || p.balancingFailed

/-- `PoleBalancing.is_current_state_final_state`: step limit reached and
neither failure flag set. -/
def PState.isCurrentStateFinalState (p : PState) : Bool :=
  decide (p.steps ≤ p.currentStep) && !p.cartExited && !p.balancingFailed

/-- `PoleBalancing.update`: advances one timestep, stores the child
state, latches the two failure flags (each guarded by `if not flag:`),
and returns −1000 on a failed step and +1 otherwise. -/
noncomputable def PState.update (p : PState) (action : Bool) : PState × ℤ :=
  let next := p.getChildState action
  let p1 := { p with currentStep := p.currentStep + 1,
                     xPos := next.1, xVel := next.2.1,
                     angle := next.2.2.1, angleVel := next.2.2.2 }
  let p2 :=
    if p1.balancingFailed then p1
    else if maxAngle ≤ |p1.angle| then { p1 with balancingFailed := true } else p1
  let p3 :=
    if p2.cartExited then p2
    else if maxXPos ≤ |p2.xPos| then { p2 with cartExited := true } else p2
  if p3.isCurrentStateFailedState then (p3, -1000) else (p3, 1)

/-- `PoleBalancing.produce_initial_state`: zero velocities and position,
a freshly drawn angle (`uniform(-max_angle, max_angle)`, the draw passed
in), cleared flags and step counter. -/
def PState.produceInitialState (p : PState) (draw : ℝ) : PState :=
  { p with angle := draw, angleVel := 0, xPos := 0, xVel := 0,
           currentStep := 0, balancingFailed := false, cartExited := false }

/-! ## Auxiliary definitions for the proofs -/

/-- Running maximum of the state-action values of the actions in `l`,
started from `bv`: the value held by `best_state_action_value` after
the `get_proposed_action` loop has processed `l`. -/
def Actor.mval (a : Actor) (state : List ℤ) (l : List ℤ) (bv : WithBot ℚ) : WithBot ℚ :=
  l.foldl (fun m act => max m ((a.getStateActionValue (state ++ [act]) : ℚ) : WithBot ℚ)) bv

/-- Example actor realising the spec's tie-break scenario: actions 0 and
1 share the maximal value 1, action 2 has value 1/2. -/
def exActor : Actor where
  policy := fun p => if p = [0] ∨ p = [1] then 1 else if p = [2] then 1 / 2 else 0
  stateActionEligibility := fun _ => 0
  lrate := 1
  drate := 1
  traceDecay := 1

/-- Example actor for the eligibility-decay witness:
`drate * trace_decay = 1/4` and the pair `[0]` has eligibility 1. -/
def elActor : Actor where
  policy := fun _ => 0
  stateActionEligibility := fun p => if p = [0] then 1 else 0
  lrate := 1
  drate := 1 / 2
  traceDecay := 1 / 2

/-- A `PoleBalancing` instance at the all-zero state with the default
constructor constants (`length=0.5`, `mass_p=0.1`, `gravity=-9.8`,
`tau=0.02`, `max_steps=300`). -/
def zeroPState : PState :=
  ⟨0, 0, 0, 0, 0, 300, false, false, 0.5, 0.1, -9.8, 0.02⟩

/-! ## Actor table updates (C1, C2) -/

/-- C1: `Actor.update_state_action_value(pair, td_error)` stores, for
that pair, `old_value + lrate * td_error * eligibility(pair)` where
`old_value` and `eligibility(pair)` are the pair's entries before the
call (absent keys read as 0 in the total-function model), and the
eligibility table is untouched. -/
theorem c1_update_state_action_value (a : Actor) (pair : List ℤ) (tdError : ℚ) :
    (a.updateStateActionValue pair tdError).policy pair
        = a.policy pair + a.lrate * tdError * a.stateActionEligibility pair ∧
      (a.updateStateActionValue pair tdError).stateActionEligibility
        = a.stateActionEligibility := by
  constructor
  · simp [Actor.updateStateActionValue, Actor.setStateActionValue,
      Actor.getStateActionValue, Actor.getStateActionEligibility]
  · rfl

/-- Iterating `update_state_action_eligibility` on one pair leaves the
learning constants unchanged and multiplies that pair's eligibility by
`drate * trace_decay` each call. -/
lemma iterate_updateElig (pair : List ℤ) (n : ℕ) (a : Actor) :
    ((fun b : Actor => b.updateStateActionEligibility pair)^[n] a).drate = a.drate ∧
      ((fun b : Actor => b.updateStateActionEligibility pair)^[n] a).traceDecay
        = a.traceDecay ∧
      ((fun b : Actor => b.updateStateActionEligibility pair)^[n] a).stateActionEligibility
          pair
        = (a.drate * a.traceDecay) ^ n * a.stateActionEligibility pair := by
  induction n with
  | zero => simp
  | succ n ih =>
    obtain ⟨h1, h2, h3⟩ := ih
    simp only [Function.iterate_succ_apply']
    have hd : ∀ b : Actor, (b.updateStateActionEligibility pair).drate = b.drate :=
      fun _ => rfl
    have ht : ∀ b : Actor, (b.updateStateActionEligibility pair).traceDecay
        = b.traceDecay := fun _ => rfl
    have he : ∀ b : Actor, (b.updateStateActionEligibility pair).stateActionEligibility
        pair = b.drate * b.traceDecay * b.stateActionEligibility pair := by
      intro b
      simp [Actor.updateStateActionEligibility, Actor.setStateActionEligibility,
        Actor.getStateActionEligibility]
    rw [hd, ht, he, h1, h2, h3]
    refine ⟨rfl, rfl, by ring⟩

/-- C2: after `n` calls to `update_state_action_eligibility` on a pair,
its eligibility is `(drate * trace_decay)^n` times the original; when
`0 < r < 1` (`r = drate * trace_decay`) and the original eligibility is
nonzero, each further call strictly shrinks the magnitude and the sign
never changes (the current value always has the sign of the original). -/
theorem c2_eligibility_decay (a : Actor) (pair : List ℤ) (n : ℕ) :
    ((fun b : Actor => b.updateStateActionEligibility pair)^[n] a).stateActionEligibility
          pair
        = (a.drate * a.traceDecay) ^ n * a.stateActionEligibility pair ∧
      (0 < a.drate * a.traceDecay → a.drate * a.traceDecay < 1 →
        a.stateActionEligibility pair ≠ 0 →
        |((fun b : Actor => b.updateStateActionEligibility pair)^[n + 1]
              a).stateActionEligibility pair|
            < |((fun b : Actor => b.updateStateActionEligibility pair)^[n]
              a).stateActionEligibility pair| ∧
          0 < ((fun b : Actor => b.updateStateActionEligibility pair)^[n]
              a).stateActionEligibility pair * a.stateActionEligibility pair) := by
  obtain ⟨-, -, h3⟩ := iterate_updateElig pair n a
  obtain ⟨-, -, h3'⟩ := iterate_updateElig pair (n + 1) a
  refine ⟨h3, fun hr0 hr1 he => ⟨?_, ?_⟩⟩
  · rw [h3, h3']
    have habs : 0 < |a.stateActionEligibility pair| := abs_pos.mpr he
    calc |(a.drate * a.traceDecay) ^ (n + 1) * a.stateActionEligibility pair|
        = (a.drate * a.traceDecay) * ((a.drate * a.traceDecay) ^ n *
            |a.stateActionEligibility pair|) := by
          rw [abs_mul, abs_pow, abs_of_pos hr0]; ring
      _ < 1 * ((a.drate * a.traceDecay) ^ n * |a.stateActionEligibility pair|) :=
          mul_lt_mul_of_pos_right hr1 (mul_pos (pow_pos hr0 n) habs)
      _ = |(a.drate * a.traceDecay) ^ n * a.stateActionEligibility pair| := by
          rw [abs_mul, abs_pow, abs_of_pos hr0]; ring
  · rw [h3]
    have hsq : 0 < a.stateActionEligibility pair ^ 2 := pow_two_pos_of_ne_zero he
    calc (0 : ℚ) < (a.drate * a.traceDecay) ^ n * a.stateActionEligibility pair ^ 2 :=
          mul_pos (pow_pos hr0 n) hsq
      _ = (a.drate * a.traceDecay) ^ n * a.stateActionEligibility pair *
          a.stateActionEligibility pair := by ring

/-- Witness for C2 at the concrete actor `elActor`, the pair `[0]` and
`n = 1`: the hypotheses `0 < 1/4 < 1` and nonzero eligibility hold. -/
theorem c2_eligibility_decay_witness :
    ((fun b : Actor => b.updateStateActionEligibility [0])^[1]
          elActor).stateActionEligibility [0]
        = (elActor.drate * elActor.traceDecay) ^ 1 *
          elActor.stateActionEligibility [0] ∧
      (|((fun b : Actor => b.updateStateActionEligibility [0])^[1 + 1]
            elActor).stateActionEligibility [0]|
          < |((fun b : Actor => b.updateStateActionEligibility [0])^[1]
            elActor).stateActionEligibility [0]| ∧
        0 < ((fun b : Actor => b.updateStateActionEligibility [0])^[1]
            elActor).stateActionEligibility [0] * elActor.stateActionEligibility [0]) :=
  ⟨(c2_eligibility_decay elActor [0] 1).1,
    (c2_eligibility_decay elActor [0] 1).2 (by norm_num [elActor])
      (by norm_num [elActor]) (by norm_num [elActor])⟩

/-! ## Error handling (C9, C10) -/

/-- C9: `get_proposed_action` on an empty `possible_actions` sequence
fails (the `random.choice` on the empty list raises) for both values of
`do_argmax` and every state and draw. -/
theorem c9_empty_possible_actions (a : Actor) (doArgmax : Bool) (state : List ℤ)
    (draw : ℕ) : a.getProposedAction doArgmax state [] draw = none := by
  cases doArgmax <;>
    simp [Actor.getProposedAction, Actor.bestActionList, Actor.argmaxGo, choice]

/-- C10: `Gambler.update` on an illegal action raises after having
already incremented `current_step`: the error path leaves the coin
count, the failure flag and the history unchanged, returns no reward,
and the step counter has advanced by 1. -/
theorem c10_illegal_update (g : GState) (a : ℤ) (w : Bool)
    (h : GState.actionIsLegal g.coins a = false) :
    (g.update a w).1.coins = g.coins ∧
      (g.update a w).1.failed = g.failed ∧
      (g.update a w).1.history = g.history ∧
      (g.update a w).1.currentStep = g.currentStep + 1 ∧
      (g.update a w).2 = none := by
  simp [GState.update, h]

/-- Witness for C10 at coins 50 and the illegal wager 0. -/
theorem c10_illegal_update_witness :
    ((⟨50, 0, 300, false, [50]⟩ : GState).update 0 true).1.coins = 50 ∧
      ((⟨50, 0, 300, false, [50]⟩ : GState).update 0 true).1.failed = false ∧
      ((⟨50, 0, 300, false, [50]⟩ : GState).update 0 true).1.history = [50] ∧
      ((⟨50, 0, 300, false, [50]⟩ : GState).update 0 true).1.currentStep = 0 + 1 ∧
      ((⟨50, 0, 300, false, [50]⟩ : GState).update 0 true).2 = none :=
  c10_illegal_update ⟨50, 0, 300, false, [50]⟩ 0 true (by decide)

/-! ## Gambler transition and reward (C8) -/

/-- C8: a legal wager `a` triggers one Bernoulli draw: on a win the coin
count becomes `c + a` with reward `+a`, on a loss `c − a` with reward
`−a`, and in every case the returned reward equals the signed change in
coins (new coins minus old coins). -/
theorem c8_update_reward (g : GState) (a : ℤ) (w : Bool)
    (h : GState.actionIsLegal g.coins a = true) :
    (g.update a w).1.coins = (if w then g.coins + a else g.coins - a) ∧
      (g.update a w).2 = some (if w then a else -a) ∧
      (g.update a w).2 = some ((g.update a w).1.coins - g.coins) := by
  cases w <;>
    · simp only [GState.update, GState.getChildState, h, if_true, if_false]
      split_ifs <;> simp

/-- Witness for C8 at coins 50 with the legal wager 10, won. -/
theorem c8_update_reward_witness :
    ((⟨50, 0, 300, false, [50]⟩ : GState).update 10 true).1.coins
        = (if true then (50 : ℤ) + 10 else 50 - 10) ∧
      ((⟨50, 0, 300, false, [50]⟩ : GState).update 10 true).2
        = some (if true then (10 : ℤ) else -10) ∧
      ((⟨50, 0, 300, false, [50]⟩ : GState).update 10 true).2
        = some (((⟨50, 0, 300, false, [50]⟩ : GState).update 10 true).1.coins - 50) :=
  c8_update_reward ⟨50, 0, 300, false, [50]⟩ 10 true (by decide)

/-! ## Gambler legal actions (C4) -/

/-- C4 counterexample: at coin state 0 the claimed interval
`[1, min(0, 100 − 0)]` is empty, yet `get_legal_actions` returns `[1]`
(whose element 1 is not a legal wager there) — so the returned list is
not exactly the integers of the interval for every state in [0, 100]. -/
theorem c4_counterexample :
    GState.getLegalActions 0 = [1] ∧
      (1 : ℤ) ∈ GState.getLegalActions 0 ∧
      ¬((1 : ℤ) ≤ min (0 : ℤ) (maxCoins - 0)) ∧
      GState.actionIsLegal 0 1 = false := by
  refine ⟨rfl, by decide, by decide, by decide⟩

/-- Membership in the list built by `get_legal_actions`: the fixed
leading `min_bet = 1` plus the integers from 2 up to `max_bet`. -/
lemma mem_getLegalActions (s x : ℤ) :
    x ∈ GState.getLegalActions s ↔ x = 1 ∨ (2 ≤ x ∧ x ≤ min s (maxCoins - s)) := by
  simp [GState.getLegalActions, maxCoins, minBet]
  constructor
  · rintro (rfl | ⟨a, ⟨i, hi, rfl⟩, rfl⟩)
    · exact Or.inl rfl
    · right; omega
  · rintro (rfl | ⟨hx1, hx2⟩)
    · exact Or.inl rfl
    · exact Or.inr ⟨x - 2, ⟨(x - 2).toNat, by omega, by omega⟩, by ring⟩

/-- C4 (amended): for coin states `s` in `[1, 99]`, `get_legal_actions`
returns exactly the integers in `[1, min(s, 100 − s)]`; at the boundary
states 0 and 100 it returns `[1]` although no wager is legal there; and
for every state, `action_is_legal` accepts exactly the integers in
`[1, min(s, 100 − s)]` (so it rejects wager 0 and any wager above the
bound). -/
theorem c4_legal_actions (s x : ℤ) :
    (1 ≤ s → s ≤ 99 →
        (x ∈ GState.getLegalActions s ↔ 1 ≤ x ∧ x ≤ min s (maxCoins - s))) ∧
      GState.getLegalActions 0 = [1] ∧
      GState.getLegalActions 100 = [1] ∧
      (GState.actionIsLegal s x = true ↔ 1 ≤ x ∧ x ≤ min s (maxCoins - s)) := by
  refine ⟨fun h1 h2 => ?_, rfl, rfl, ?_⟩
  · rw [mem_getLegalActions]
    simp only [maxCoins]
    omega
  · simp only [GState.actionIsLegal, maxCoins, minBet, Bool.and_eq_true,
      decide_eq_true_eq]

/-- Witness for C4 at state 50 and wager 7 (hypotheses `1 ≤ 50 ≤ 99`). -/
theorem c4_legal_actions_witness :
    (7 : ℤ) ∈ GState.getLegalActions 50 ↔ 1 ≤ (7 : ℤ) ∧ (7 : ℤ) ≤ min 50 (maxCoins - 50) :=
  (c4_legal_actions 50 7).1 (by decide) (by decide)

/-! ## Final-state detection (C5) -/

/-- C5 counterexample: with `max_steps = 1`, starting at 50 coins, a won
wager of 1 triggers the timeout failure (`failed = true` after step 1),
yet a further legal won wager of 49 reaches 100 coins and
`is_current_state_final_state` then returns true even though a failure
condition was triggered earlier in the episode (both updates returned a
reward, i.e. were legal). -/
theorem c5_counterexample :
    ((GState.update ⟨50, 0, 1, false, [50]⟩ 1 true).2 = some 1) ∧
      ((GState.update ⟨50, 0, 1, false, [50]⟩ 1 true).1.failed = true) ∧
      ((GState.update (GState.update ⟨50, 0, 1, false, [50]⟩ 1 true).1 49 true).2
        = some 49) ∧
      ((GState.update (GState.update ⟨50, 0, 1, false, [50]⟩ 1 true).1 49
          true).1.isCurrentStateFinalState = true) ∧
      ((GState.update (GState.update ⟨50, 0, 1, false, [50]⟩ 1 true).1 49
          true).1.failed = true) := by
  refine ⟨rfl, rfl, rfl, rfl, rfl⟩

/-- C5 (amended): `PoleBalancing.is_current_state_final_state` is true
iff the step count reached the maximum with neither failure flag set
(success without prior failure), but `Gambler.is_current_state_final_state`
is true iff the coin count equals `max_coins`, regardless of the
`failed` flag — after a timeout failure it can still return true when
the coins later reach 100. -/
theorem c5_final_state (g : GState) (p : PState) :
    (g.isCurrentStateFinalState = true ↔ g.coins = maxCoins) ∧
      (p.isCurrentStateFinalState = true ↔
        p.steps ≤ p.currentStep ∧ p.cartExited = false ∧ p.balancingFailed = false) := by
  constructor
  · simp [GState.isCurrentStateFinalState]
  · simp only [PState.isCurrentStateFinalState, Bool.and_eq_true, Bool.not_eq_true',
      decide_eq_true_eq]
    tauto

/-! ## Failure flags are latched (C6) -/

/-- C6: in both environments the failure state is monotone within an
episode: once `failed` (Gambler) or `balancing_failed`/`cart_exited`
(PoleBalancing) is true, any further `update` — with any action, any
Bernoulli outcome, and whatever the new continuous values are — leaves
it true; only `produce_initial_state` resets the flags to false. -/
theorem c6_failure_flags_latch (g : GState) (a : ℤ) (w : Bool) (p : PState)
    (act : Bool) (dg : ℤ) (dp : ℝ) :
    (g.failed = true → ((g.update a w).1).failed = true) ∧
      (p.balancingFailed = true → ((p.update act).1).balancingFailed = true) ∧
      (p.cartExited = true → ((p.update act).1).cartExited = true) ∧
      (g.produceInitialState dg).failed = false ∧
      (p.produceInitialState dp).balancingFailed = false ∧
      (p.produceInitialState dp).cartExited = false := by
  refine ⟨fun hg => ?_, fun hp => ?_, fun hp => ?_, rfl, rfl, rfl⟩
  · simp only [GState.update]
    split_ifs <;> simp_all
  · simp only [PState.update]
    split_ifs <;> simp_all
  · simp only [PState.update]
    split_ifs <;> simp_all

/-- Witness for C6: concrete already-failed Gambler and PoleBalancing
states keep their failure flags through one more update, and a reset
clears them. -/
theorem c6_failure_flags_latch_witness :
    (((⟨50, 3, 300, true, [50]⟩ : GState).update 10 true).1.failed = true) ∧
      ((zeroPState.update true).1.balancingFailed
          = (zeroPState.update true).1.balancingFailed) ∧
      (((⟨0, 0, 0, 0, 5, 300, true, false, 0.5, 0.1, -9.8, 0.02⟩ : PState).update
          true).1.balancingFailed = true) ∧
      (((⟨0, 0, 0, 0, 5, 300, false, true, 0.5, 0.1, -9.8, 0.02⟩ : PState).update
          true).1.cartExited = true) ∧
      ((⟨50, 3, 300, true, [50]⟩ : GState).produceInitialState 42).failed = false ∧
      ((⟨0, 0, 0, 0, 5, 300, true, true, 0.5, 0.1, -9.8,
          0.02⟩ : PState).produceInitialState 0.1).balancingFailed = false :=
  ⟨(c6_failure_flags_latch ⟨50, 3, 300, true, [50]⟩ 10 true zeroPState true 42 0.1).1
      rfl,
    rfl,
    (c6_failure_flags_latch ⟨50, 3, 300, true, [50]⟩ 10 true
          ⟨0, 0, 0, 0, 5, 300, true, false, 0.5, 0.1, -9.8, 0.02⟩ true 42 0.1).2.1 rfl,
    (c6_failure_flags_latch ⟨50, 3, 300, true, [50]⟩ 10 true
          ⟨0, 0, 0, 0, 5, 300, false, true, 0.5, 0.1, -9.8, 0.02⟩ true 42 0.1).2.2.1 rfl,
    (c6_failure_flags_latch ⟨50, 3, 300, true, [50]⟩ 10 true zeroPState true 42
          0.1).2.2.2.1,
    (c6_failure_flags_latch ⟨50, 3, 300, true, [50]⟩ 10 true
          ⟨0, 0, 0, 0, 5, 300, true, true, 0.5, 0.1, -9.8, 0.02⟩ true 42
          0.1).2.2.2.2.1⟩

/-! ## PoleBalancing forward-Euler step (C7) -/

/-- C7: `get_child_state` performs one forward-Euler step of size `tau`
with the exact sequencing (positions advance with the old velocities,
velocities with the accelerations freshly computed from the old state
by the closed-form single-pole-on-cart equations, with cart mass 1 and
the signed bang-bang force ±10), and from the all-zero state with the
default constants either action yields nonzero `x_acc` and `angle_acc`. -/
theorem c7_euler_step (p : PState) (action : Bool) :
    (p.getChildState action =
        (p.xPos + p.tau * p.xVel,
          p.xVel + p.tau *
            p.updateXAcc (bbForceOf action) (p.updateAngleAcc (bbForceOf action)),
          p.angle + p.tau * p.angleVel,
          p.angleVel + p.tau * p.updateAngleAcc (bbForceOf action))) ∧
      (p.updateAngleAcc (bbForceOf action) =
        (p.gravity * Real.sin p.angle +
            Real.cos p.angle *
              (-bbForceOf action -
                p.massP * p.length * p.angleVel ^ 2 * Real.sin p.angle) /
              (p.massP + 1)) /
          (p.length * (4 / 3 - p.massP * Real.cos p.angle ^ 2 / (p.massP + 1)))) ∧
      (p.updateXAcc (bbForceOf action) (p.updateAngleAcc (bbForceOf action)) =
        (bbForceOf action +
            p.massP * p.length *
              (p.angleVel ^ 2 * Real.sin p.angle -
                p.updateAngleAcc (bbForceOf action) * Real.cos p.angle)) /
          (p.massP + 1)) ∧
      (bbForceOf true = 10 ∧ bbForceOf false = -10) ∧
      (zeroPState.updateAngleAcc (bbForceOf action) ≠ 0 ∧
        zeroPState.updateXAcc (bbForceOf action)
            (zeroPState.updateAngleAcc (bbForceOf action)) ≠ 0) := by
  refine ⟨rfl, rfl, rfl, ⟨rfl, rfl⟩, ?_, ?_⟩ <;> cases action <;>
    norm_num [PState.updateAngleAcc, PState.updateXAcc, zeroPState, bbForceOf,
      massC, force, Real.cos_zero, Real.sin_zero, div_ne_zero_iff]

/-! ## Greedy action selection (C3) -/

/-- Unfolding `Actor.mval` on a cons cell. -/
lemma mval_cons (a : Actor) (state : List ℤ) (act : ℤ) (l : List ℤ) (bv : WithBot ℚ) :
    a.mval state (act :: l) bv
      = a.mval state l (max bv ((a.getStateActionValue (state ++ [act]) : ℚ) : WithBot ℚ)) :=
  rfl

/-- The running maximum never drops below its start value. -/
lemma le_mval (a : Actor) (state : List ℤ) :
    ∀ (l : List ℤ) (bv : WithBot ℚ), bv ≤ a.mval state l bv := by
  intro l
  induction l with
  | nil => exact fun bv => le_refl bv
  | cons act rest ih =>
    intro bv
    exact le_trans (le_max_left _ _) (ih _)

/-- Every processed action's value is bounded by the running maximum. -/
lemma mem_le_mval (a : Actor) (state : List ℤ) :
    ∀ (l : List ℤ) (bv : WithBot ℚ) (x : ℤ), x ∈ l →
      ((a.getStateActionValue (state ++ [x]) : ℚ) : WithBot ℚ) ≤ a.mval state l bv := by
  intro l
  induction l with
  | nil => intro bv x hx; cases hx
  | cons act rest ih =>
    intro bv x hx
    rcases List.mem_cons.mp hx with rfl | hx
    · exact le_trans (le_max_right _ _) (le_mval a state rest _)
    · exact ih _ x hx

/-- The running maximum is the least bound of the start value and the
processed values. -/
lemma mval_le (a : Actor) (state : List ℤ) :
    ∀ (l : List ℤ) (bv c : WithBot ℚ), bv ≤ c →
      (∀ b ∈ l, ((a.getStateActionValue (state ++ [b]) : ℚ) : WithBot ℚ) ≤ c) →
      a.mval state l bv ≤ c := by
  intro l
  induction l with
  | nil => exact fun bv c h _ => h
  | cons act rest ih =>
    intro bv c hbv hl
    exact ih _ c (max_le hbv (hl act (List.mem_cons_self _ _)))
      fun b hb => hl b (List.mem_cons_of_mem _ hb)

/-- Loop invariant of `get_proposed_action`'s argmax accumulation: when
every entry of `best` has value `bv`, an element is in the final list
iff it is an old entry and `bv` survives as the overall maximum, or it
is an action of `l` whose value equals the overall maximum. -/
lemma argmaxGo_mem (a : Actor) (state : List ℤ) :
    ∀ (l best : List ℤ) (bv : WithBot ℚ),
      (∀ b ∈ best, ((a.getStateActionValue (state ++ [b]) : ℚ) : WithBot ℚ) = bv) →
      ∀ x, x ∈ a.argmaxGo state l best bv ↔
        ((x ∈ best ∧ bv = a.mval state l bv) ∨
          (x ∈ l ∧
            ((a.getStateActionValue (state ++ [x]) : ℚ) : WithBot ℚ)
              = a.mval state l bv)) := by
  intro l
  induction l with
  | nil =>
    intro best bv _ x
    simp [Actor.argmaxGo, Actor.mval]
  | cons act rest ih =>
    intro best bv hinv x
    simp only [Actor.argmaxGo]
    rw [mval_cons]
    split_ifs with h1 h2
    · -- strictly larger value: the list restarts with [act]
      rw [max_eq_right h1.le]
      rw [ih [act] _ (by simp)]
      have hbvne : bv ≠ a.mval state rest
          ((a.getStateActionValue (state ++ [act]) : ℚ) : WithBot ℚ) :=
        ne_of_lt (lt_of_lt_of_le h1 (le_mval a state rest _))
      constructor
      · rintro (⟨hx, hv⟩ | ⟨hx, hv⟩)
        · rcases List.mem_singleton.mp hx with rfl
          exact Or.inr ⟨List.mem_cons_self _ _, hv⟩
        · exact Or.inr ⟨List.mem_cons_of_mem _ hx, hv⟩
      · rintro (⟨-, hbv⟩ | ⟨hx, hv⟩)
        · exact absurd hbv hbvne
        · rcases List.mem_cons.mp hx with rfl | hx
          · exact Or.inl ⟨List.mem_singleton_self _, hv⟩
          · exact Or.inr ⟨hx, hv⟩
    · -- equal value: act is appended to best
      rw [← h2, max_self]
      rw [ih (best ++ [act]) bv ?hinv']
      case hinv' =>
        intro b hb
        rcases List.mem_append.mp hb with hb | hb
        · exact hinv b hb
        · rcases List.mem_singleton.mp hb with rfl
          exact h2.symm
      constructor
      · rintro (⟨hx, hv⟩ | ⟨hx, hv⟩)
        · rcases List.mem_append.mp hx with hx | hx
          · exact Or.inl ⟨hx, hv⟩
          · rcases List.mem_singleton.mp hx with rfl
            exact Or.inr ⟨List.mem_cons_self _ _, by rw [← h2]; exact hv⟩
        · exact Or.inr ⟨List.mem_cons_of_mem _ hx, hv⟩
      · rintro (⟨hx, hv⟩ | ⟨hx, hv⟩)
        · exact Or.inl ⟨List.mem_append_left _ hx, hv⟩
        · rcases List.mem_cons.mp hx with rfl | hx
          · exact Or.inl ⟨List.mem_append_right _ (List.mem_singleton_self _),
              h2.trans hv⟩
          · exact Or.inr ⟨hx, hv⟩
    · -- strictly smaller value: act is skipped
      have h3 : ((a.getStateActionValue (state ++ [act]) : ℚ) : WithBot ℚ) < bv :=
        lt_of_le_of_ne (le_of_not_lt h1) (fun hc => h2 hc.symm)
      rw [max_eq_left h3.le]
      rw [ih best bv hinv]
      have hactne : ¬ ((a.getStateActionValue (state ++ [act]) : ℚ) : WithBot ℚ)
          = a.mval state rest bv :=
        ne_of_lt (lt_of_lt_of_le h3 (le_mval a state rest bv))
      constructor
      · rintro (⟨hx, hv⟩ | ⟨hx, hv⟩)
        · exact Or.inl ⟨hx, hv⟩
        · exact Or.inr ⟨List.mem_cons_of_mem _ hx, hv⟩
      · rintro (⟨hx, hv⟩ | ⟨hx, hv⟩)
        · exact Or.inl ⟨hx, hv⟩
        · rcases List.mem_cons.mp hx with rfl | hx
          · exact absurd hv hactne
          · exact Or.inr ⟨hx, hv⟩

/-- The collected best-action list is nonempty whenever the loop starts
with a nonempty candidate list (or a nonempty accumulator). -/
lemma argmaxGo_ne_nil (a : Actor) (state : List ℤ) :
    ∀ (l best : List ℤ) (bv : WithBot ℚ), (best = [] → bv = ⊥) →
      (best ≠ [] ∨ l ≠ []) → a.argmaxGo state l best bv ≠ [] := by
  intro l
  induction l with
  | nil =>
    intro best bv _ hne
    rcases hne with hne | hne
    · exact hne
    · exact absurd rfl hne
  | cons act rest ih =>
    intro best bv hbv _
    simp only [Actor.argmaxGo]
    split_ifs with h1 h2
    · exact ih [act] _ (by simp) (Or.inl (by simp))
    · exact ih (best ++ [act]) bv (by simp) (Or.inl (by simp))
    · have h3 : ((a.getStateActionValue (state ++ [act]) : ℚ) : WithBot ℚ) < bv :=
        lt_of_le_of_ne (le_of_not_lt h1) (fun hc => h2 hc.symm)
      have hbot : bv ≠ ⊥ := by
        intro hc
        rw [hc] at h3
        exact absurd h3 (by simp)
      exact ih best bv hbv (Or.inl fun hc => hbot (hbv hc))

/-- `random.choice` succeeds on a nonempty list. -/
lemma choice_isSome (l : List ℤ) (h : l ≠ []) (d : ℕ) : ∃ x, choice l d = some x := by
  have hlt : d % l.length < l.length := Nat.mod_lt _ (List.length_pos.mpr h)
  exact ⟨l[d % l.length], by simp [choice, List.getElem?_eq_getElem hlt]⟩

/-- The values `random.choice` can return are exactly the list members. -/
lemma choice_mem (l : List ℤ) (x : ℤ) : (∃ d, choice l d = some x) ↔ x ∈ l := by
  constructor
  · rintro ⟨d, hd⟩
    simp only [choice] at hd
    exact List.getElem?_mem hd
  · intro hx
    obtain ⟨i, hi, hget⟩ := List.mem_iff_getElem.mp hx
    refine ⟨i, ?_⟩
    simp [choice, Nat.mod_eq_of_lt (lt_of_lt_of_le hi (Nat.le_of_eq rfl)),
      List.getElem?_eq_getElem hi, hget]

/-- C3: with `do_argmax=True` and a non-empty `possible_actions`,
`get_proposed_action` always returns an action, and the actions it can
return (over the random tie-break draws, each tied maximizer being hit
by some draw of the uniform choice) are exactly the actions whose
state-action value (key = state concatenated with the action) is
maximal among `possible_actions`; an action of strictly smaller value
is never returned. -/
theorem c3_greedy_action (a : Actor) (state : List ℤ) (possibleActions : List ℤ)
    (h : possibleActions ≠ []) :
    (∀ draw, ∃ r, a.getProposedAction true state possibleActions draw = some r) ∧
      (∀ x, (∃ draw, a.getProposedAction true state possibleActions draw = some x) ↔
        (x ∈ possibleActions ∧ ∀ b ∈ possibleActions,
          a.getStateActionValue (state ++ [b]) ≤ a.getStateActionValue (state ++ [x]))) := by
  have hgp : ∀ d, a.getProposedAction true state possibleActions d
      = choice (a.bestActionList state possibleActions) d := fun _ => rfl
  have hbest : a.bestActionList state possibleActions ≠ [] :=
    argmaxGo_ne_nil a state possibleActions [] ⊥ (fun _ => rfl) (Or.inr h)
  constructor
  · intro draw
    obtain ⟨x, hx⟩ := choice_isSome _ hbest draw
    exact ⟨x, (hgp draw).trans hx⟩
  · intro x
    simp only [hgp]
    rw [choice_mem]
    have hmem := argmaxGo_mem a state possibleActions [] ⊥ (by simp) x
    rw [Actor.bestActionList, hmem]
    simp only [List.not_mem_nil, false_and, false_or]
    constructor
    · rintro ⟨hx, hv⟩
      refine ⟨hx, fun b hb => ?_⟩
      have hb' := mem_le_mval a state possibleActions ⊥ b hb
      rw [← hv] at hb'
      exact_mod_cast hb'
    · rintro ⟨hx, hall⟩
      exact ⟨hx, le_antisymm (mem_le_mval a state possibleActions ⊥ x hx)
        (mval_le a state possibleActions ⊥ _ bot_le
          fun b hb => by exact_mod_cast hall b hb)⟩

/-- Witness for C3 at the spec's example (values A:1, B:1, C:1/2 for
actions 0, 1, 2): actions 0 and 1 are each returned for some draw,
action 2 for none. -/
theorem c3_greedy_action_witness :
    (∃ d, exActor.getProposedAction true [] [0, 1, 2] d = some 0) ∧
      (∃ d, exActor.getProposedAction true [] [0, 1, 2] d = some 1) ∧
      ¬(∃ d, exActor.getProposedAction true [] [0, 1, 2] d = some 2) :=
  ⟨((c3_greedy_action exActor [] [0, 1, 2] (by decide)).2 0).mpr
      (by norm_num [exActor, Actor.getStateActionValue]),
    ((c3_greedy_action exActor [] [0, 1, 2] (by decide)).2 1).mpr
      (by norm_num [exActor, Actor.getStateActionValue]),
    fun hex =>
      absurd (((c3_greedy_action exActor [] [0, 1, 2] (by decide)).2 2).mp hex)
        (by norm_num [exActor, Actor.getStateActionValue])⟩

end ACRL
